import Mathlib

/-!
Verification of the signal-proxy core against its specification.

Shallow embedding of the Go sources:
* `internal/auth/ratelimit.go` — per-user token-bucket rate limiter
* `internal/auth/auth.go` — user store (load, credential check, rate-limit entry)
* `internal/proxy/server.go` — admission semaphore, SNI parser, Signal relay
* `internal/httpproxy/server.go` — HTTP proxy handler and CONNECT relay
* SOCKS5 engine (`internal/proxy/stats.go` concatenation) — method negotiation
* bandwidth tracker (`unnamed/part_004`) — monthly byte counters, persistence

Go `float64` bucket arithmetic is modelled over `ℚ`; Go `int`/`int64` over
`ℤ` (or `ℕ` where the source value is a length or a count that the source
never drives negative); Go byte strings over `List ℕ`.  Concurrency is
modelled deterministically: each copy task is a function of a script of its
read/write outcomes, and the caller's channel receives are counted as they
appear textually in the source.
-/

namespace SignalProxy

/-! ### Token-bucket rate limiter (`internal/auth/ratelimit.go`) -/

/-- One token bucket, as in `type tokenBucket struct`.  `float64` fields are
modelled as rationals; `lastRefill` is replaced by passing the elapsed time
(in seconds) into `allow` directly. -/
structure TokenBucket where
  tokens : ℚ
  maxTokens : ℚ
  refillRate : ℚ
  deriving Repr, DecidableEq

/-- `SetLimit` bucket construction: burst capacity is `rpm/6` floored at 10,
refill rate is `rpm/60` tokens per second, and the bucket starts full. -/
def setLimitBucket (rpm : ℤ) : TokenBucket :=
  let maxTokens : ℚ := if (rpm : ℚ) / 6 < 10 then 10 else (rpm : ℚ) / 6
  { tokens := maxTokens, maxTokens := maxTokens, refillRate := (rpm : ℚ) / 60 }

/-- One `Allow` call on an existing bucket: refill proportionally to the
elapsed seconds, clamp to capacity, then consume one token when at least one
is available.  Returns the decision and the updated bucket. -/
def allowStep (b : TokenBucket) (elapsed : ℚ) : Bool × TokenBucket :=
  let t := b.tokens + elapsed * b.refillRate
  let t := if b.maxTokens < t then b.maxTokens else t
  if 1 ≤ t then (true, { b with tokens := t - 1 })
  else (false, { b with tokens := t })

/-! ### User store (`internal/auth/auth.go`, second revision with roles) -/

/-- A user record (`type User struct`). -/
structure User where
  username : String
  role : String
  passwordHash : String
  rateLimitRPM : ℤ
  enabled : Bool
  deriving Repr, DecidableEq

/-- The parsed users file (`type UsersConfig struct`). -/
structure UsersConfig where
  users : List User
  ipWhitelist : List String
  superAdminIPs : List String
  deriving Repr, DecidableEq

/-- Go `strings.ToLower` restricted to the per-character fold (exact for the
ASCII usernames the catalog uses). -/
def goToLower (s : String) : String := ⟨s.data.map Char.toLower⟩

/-- Insert into a Go map modelled as an association list: an existing key is
overwritten in place, a new key is appended. -/
def mapInsert (m : List (String × User)) (k : String) (v : User) :
    List (String × User) :=
  match m with
  | [] => [(k, v)]
  | (k', v') :: rest =>
      if k' = k then (k, v) :: rest else (k', v') :: mapInsert rest k v

/-- Go map lookup on the association-list model. -/
def mapLookup (m : List (String × User)) (k : String) : Option User :=
  match m with
  | [] => none
  | (k', v) :: rest => if k' = k then some v else mapLookup rest k

/-- The limiter paired with the per-user bucket map, as held by `UserStore`. -/
structure LimiterState where
  buckets : List (String × TokenBucket)
  deriving Repr, DecidableEq

def limiterLookup (m : List (String × TokenBucket)) (k : String) :
    Option TokenBucket :=
  match m with
  | [] => none
  | (k', v) :: rest => if k' = k then some v else limiterLookup rest k

def limiterInsert (m : List (String × TokenBucket)) (k : String)
    (v : TokenBucket) : List (String × TokenBucket) :=
  match m with
  | [] => [(k, v)]
  | (k', v') :: rest =>
      if k' = k then (k, v) :: rest else (k', v') :: limiterInsert rest k v

/-- `RateLimiter.SetLimit`: record the rpm and install a fresh full bucket. -/
def rateLimiterSetLimit (st : LimiterState) (username : String) (rpm : ℤ) :
    LimiterState :=
  { buckets := limiterInsert st.buckets username (setLimitBucket rpm) }

/-- `RateLimiter.Allow`: a user without a bucket is always allowed; otherwise
refill by the elapsed seconds and try to consume one token. -/
def rateLimiterAllow (st : LimiterState) (username : String) (elapsed : ℚ) :
    Bool × LimiterState :=
  match limiterLookup st.buckets username with
  | none => (true, st)
  | some b =>
      let (ok, b') := allowStep b elapsed
      (ok, { buckets := limiterInsert st.buckets username b' })

/-- The in-memory `UserStore` state relevant to rate limiting: the catalog of
enabled users (keyed by the case-folded username) and the limiter. -/
structure StoreState where
  users : List (String × User)
  limiter : LimiterState
  deriving Repr, DecidableEq

/-- `UserStore.CheckRateLimit`: an unknown (or disabled, hence never loaded)
username is reported as rate-limited; a known user with `RateLimitRPM ≤ 0`
bypasses the limiter; otherwise defer to `RateLimiter.Allow`. -/
def checkRateLimit (s : StoreState) (username : String) (elapsed : ℚ) :
    Bool × StoreState :=
  match mapLookup s.users (goToLower username) with
  | none => (false, s)
  | some user =>
      if user.rateLimitRPM ≤ 0 then (true, s)
      else
        let (ok, lim') := rateLimiterAllow s.limiter username elapsed
        (ok, { s with limiter := lim' })

/-! ### SNI parser (`internal/proxy/server.go`, `extractSNI`)

Go byte strings are modelled as `List ℕ`; the empty string is `[]`.  Every
slice access in the source is preceded by an explicit bounds check, so the
defaulting read `byteAt` below is only ever evaluated in range. -/

/-- `data[i]` on a Go byte slice (the source always checks bounds first). -/
def byteAt (d : List ℕ) (i : ℕ) : ℕ := d.getD i 0

/-- The extension-walking loop of `extractSNI`: starting at `pos`, read the
4-byte extension header (`extType` is the first pair of bytes, `extLen` the
second, both big-endian — inlined here); on type `0x0000` parse the first
server-name entry (require name type `0`, read `nameLen` from bytes 3–4 of
the extension body), otherwise skip `extLen` bytes and continue. -/
def findSNIExt (d : List ℕ) (pos endPos : ℕ) : List ℕ :=
  if h : pos + 4 ≤ endPos then
    if byteAt d pos * 256 + byteAt d (pos + 1) = 0 then
      if endPos < pos + 4 + 5 then []
      else if byteAt d (pos + 4 + 2) ≠ 0 then []
      else if endPos < pos + 4 + 5 +
          (byteAt d (pos + 4 + 3) * 256 + byteAt d (pos + 4 + 4)) then []
      else (d.drop (pos + 4 + 5)).take
          (byteAt d (pos + 4 + 3) * 256 + byteAt d (pos + 4 + 4))
    else findSNIExt d
      (pos + 4 + (byteAt d (pos + 2) * 256 + byteAt d (pos + 3))) endPos
  else []
termination_by endPos - pos
decreasing_by omega

/-- `extractSNI`: parse a TLS ClientHello record and return the SNI host
bytes, or `[]` on any check failure.  Mirrors the source line by line: record
type `0x16`, 5-byte record header, handshake type `0x01`, 4-byte handshake
header, version+random (34), variable session-id / cipher-suites /
compression-methods, then the extension walk with `endPos` clamped to the
input length. -/
def extractSNI (d : List ℕ) : List ℕ :=
  if d.length < 5 then [] else
  if byteAt d 0 ≠ 0x16 then [] else
  if d.length < 5 + 4 then [] else
  if byteAt d 5 ≠ 0x01 then [] else
  if d.length < 9 + 34 then [] else
  let sessionIDLen := byteAt d 43
  let pos1 := 43 + 1 + sessionIDLen
  if d.length < pos1 + 2 then [] else
  let cipherSuitesLen := byteAt d pos1 * 256 + byteAt d (pos1 + 1)
  let pos2 := pos1 + 2 + cipherSuitesLen
  if d.length < pos2 + 1 then [] else
  let compressionLen := byteAt d pos2
  let pos3 := pos2 + 1 + compressionLen
  if d.length < pos3 + 2 then [] else
  let extensionsLen := byteAt d pos3 * 256 + byteAt d (pos3 + 1)
  let pos4 := pos3 + 2
  findSNIExt d pos4 (min (pos4 + extensionsLen) d.length)

/-- Big-endian 2-byte encoding, as a TLS length field. -/
def enc16 (n : ℕ) : List ℕ := [n / 256 % 256, n % 256]

/-- A well-formed `server_name` extension whose first (and only) entry has
name type `host_name` (0) and host bytes `host`. -/
def sniExtension (host : List ℕ) : List ℕ :=
  enc16 0 ++ enc16 (host.length + 5) ++ enc16 (host.length + 3) ++ [0] ++
    enc16 host.length ++ host

/-- Encode a list of (type, payload) extensions back to back. -/
def encodeExts (exts : List (ℕ × List ℕ)) : List ℕ :=
  (exts.map fun e => enc16 e.1 ++ enc16 e.2.length ++ e.2).flatten

/-- Assemble a well-formed ClientHello record: record type `0x16`, four
arbitrary record-header bytes, handshake type `0x01`, three arbitrary
handshake-length bytes, 34 version+random bytes, session id, cipher suites,
compression methods, and an extension block consisting of `extsBefore`
followed by a `server_name` extension for `host`. -/
def mkClientHello (r4 h3 vr sid cs comp : List ℕ)
    (extsBefore : List (ℕ × List ℕ)) (host : List ℕ) : List ℕ :=
  let extBytes := encodeExts extsBefore ++ sniExtension host
  [0x16] ++ r4 ++ [0x01] ++ h3 ++ vr ++
    [sid.length] ++ sid ++ enc16 cs.length ++ cs ++ [comp.length] ++ comp ++
    enc16 extBytes.length ++ extBytes

/-! ### Bandwidth tracker (`unnamed/part_004`) -/

/-- Per-user usage record (`type UserUsage struct`); Go `int64`/`int`
counters are modelled over `ℤ`. -/
structure UserUsage where
  bytesUp : ℤ
  bytesDown : ℤ
  totalBytes : ℤ
  lastResetAt : String
  activeConns : ℤ
  deriving Repr, DecidableEq

/-- The tracker's in-memory state: user map plus the current month tag. -/
structure TrackerState where
  users : List (String × UserUsage)
  month : String
  deriving Repr, DecidableEq

def usageLookup (m : List (String × UserUsage)) (k : String) :
    Option UserUsage :=
  match m with
  | [] => none
  | (k', v) :: rest => if k' = k then some v else usageLookup rest k

/-- Update (or create) a user entry, mirroring `getOrCreate` followed by a
mutation of the returned pointer.  A missing user is created zeroed with
`LastResetAt` set to the current time string. -/
def usageUpdate (m : List (String × UserUsage)) (k : String) (nowStr : String)
    (f : UserUsage → UserUsage) : List (String × UserUsage) :=
  match m with
  | [] => [(k, f { bytesUp := 0, bytesDown := 0, totalBytes := 0,
                   lastResetAt := nowStr, activeConns := 0 })]
  | (k', v) :: rest =>
      if k' = k then (k, f v) :: rest
      else (k', v) :: usageUpdate rest k nowStr f

/-- `checkMonthlyReset`: when the wall-clock month differs from the tag,
zero every user's byte counters (active connections are left alone), stamp
`LastResetAt`, and adopt the new tag.  (The disk write it also performs is
I/O and carries no state.) -/
def checkMonthlyReset (currentMonth nowStr : String) (t : TrackerState) :
    TrackerState :=
  if currentMonth ≠ t.month then
    { users := t.users.map fun p =>
        (p.1, { p.2 with bytesUp := 0, bytesDown := 0, totalBytes := 0,
                         lastResetAt := nowStr }),
      month := currentMonth }
  else t

/-- `Tracker.RecordBytes`: rollover check, then add to the three counters. -/
def recordBytes (currentMonth nowStr : String) (username : String)
    (up down : ℤ) (t : TrackerState) : TrackerState :=
  let t := checkMonthlyReset currentMonth nowStr t
  { t with users := usageUpdate t.users username nowStr fun u =>
      { u with bytesUp := u.bytesUp + up, bytesDown := u.bytesDown + down,
               totalBytes := u.totalBytes + (up + down) } }

/-- `Tracker.IncrementConns` (no rollover check in the source). -/
def incrementConns (nowStr : String) (username : String) (t : TrackerState) :
    TrackerState :=
  { t with users := usageUpdate t.users username nowStr fun u =>
      { u with activeConns := u.activeConns + 1 } }

/-- `Tracker.DecrementConns`: decrement only when strictly positive. -/
def decrementConns (nowStr : String) (username : String) (t : TrackerState) :
    TrackerState :=
  { t with users := usageUpdate t.users username nowStr fun u =>
      if 0 < u.activeConns then { u with activeConns := u.activeConns - 1 }
      else u }

/-- The parsed usage file (`type UsageFile struct`); `users = none` models a
JSON document whose `users` map is absent (`nil`). -/
structure UsageFileData where
  month : String
  users : Option (List (String × UserUsage))
  deriving Repr, DecidableEq

/-- A fresh tracker as built by `NewTracker` before `loadFromDisk`: empty
user map, current month. -/
def freshTracker (currentMonth : String) : TrackerState :=
  { users := [], month := currentMonth }

/-- `loadFromDisk`: `file = none` models a missing or unparseable file (kept
state unchanged).  When the file's month tag equals the current month and its
user map is present, adopt it wholesale, forcing every `ActiveConns` to 0;
otherwise discard the file. -/
def loadFromDisk (t : TrackerState) (file : Option UsageFileData)
    (currentMonth : String) : TrackerState :=
  match file with
  | none => t
  | some f =>
      match f.users with
      | some us =>
          if f.month = currentMonth then
            { users := us.map fun p => (p.1, { p.2 with activeConns := 0 }),
              month := f.month }
          else t
      | none => t

/-- The per-user record invariant of the spec: byte counters sum correctly
and the active-connection count is non-negative. -/
def UsageInv (u : UserUsage) : Prop :=
  u.bytesUp + u.bytesDown = u.totalBytes ∧ 0 ≤ u.activeConns

instance (u : UserUsage) : Decidable (UsageInv u) := by
  unfold UsageInv; infer_instance

/-- The tracker-wide invariant: every user record satisfies `UsageInv`. -/
def TrackerInv (t : TrackerState) : Prop := ∀ p ∈ t.users, UsageInv p.2

instance (t : TrackerState) : Decidable (TrackerInv t) := by
  unfold TrackerInv; infer_instance

/-! ### Catalog load (`internal/auth/auth.go`, `LoadFromFile`) -/

/-- Load failures the source can actually return: a read error, malformed
JSON, or an invalid CIDR in either list.  (There is no duplicate-user or
multiple-super-admin error in the source.) -/
inductive LoadError where
  | readFailed : LoadError
  | parseFailed : LoadError
  | invalidWhitelistCIDR : String → LoadError
  | invalidSuperAdminCIDR : String → LoadError
  deriving Repr, DecidableEq

/-- The catalog state `LoadFromFile` installs on success. -/
structure Catalog where
  users : List (String × User)
  superAdmin : Option User
  whitelistOk : List String
  superAdminOk : List String
  deriving Repr, DecidableEq

/-- `parseCIDR`'s bare-IP normalization: append `/128` to a bare IPv6 and
`/32` to a bare IPv4 before handing to the platform parser.
(`strings.Contains` is modelled over the character list.) -/
def normalizeCIDR (s : String) : String :=
  if ¬ (s.data.contains '/') then
    if s.data.contains ':' then s ++ "/128" else s ++ "/32"
  else s

/-- Scan a CIDR list with the (external) platform parser `cidrOk`, failing on
the first invalid entry, as the source's loop does. -/
def parseCIDRList (cidrOk : String → Bool) (mk : String → LoadError) :
    List String → Except LoadError (List String)
  | [] => .ok []
  | c :: rest =>
      if cidrOk (normalizeCIDR c) then
        match parseCIDRList cidrOk mk rest with
        | .ok l => .ok (c :: l)
        | .error e => .error e
      else .error (mk c)

/-- The enabled-user map built by the load loop: usernames are case-folded
for the key; a later duplicate silently overwrites the earlier entry. -/
def buildUserMap (us : List User) : List (String × User) :=
  us.foldl
    (fun m u =>
      if u.enabled then mapInsert m (goToLower u.username) u else m) []

/-- The super-admin scan: the source iterates the user map and keeps the
first user whose case-folded role is `super_admin` (map order is arbitrary in
Go; the association-list order stands in for it). -/
def findSuperAdmin : List (String × User) → Option User
  | [] => none
  | (_, u) :: rest =>
      if goToLower u.role = "super_admin" then some u else findSuperAdmin rest

/-- `LoadFromFile`, given the parse outcome of the file (`none` models
`json.Unmarshal` failure) and the platform CIDR parser: build the enabled
user map (last duplicate wins, no error), cache the first super-admin (no
uniqueness check), and validate both CIDR lists. -/
def loadFromFile (doc : Option UsersConfig) (cidrOk : String → Bool) :
    Except LoadError Catalog :=
  match doc with
  | none => .error .parseFailed
  | some cfg =>
      let userMap := buildUserMap cfg.users
      match parseCIDRList cidrOk LoadError.invalidWhitelistCIDR
          cfg.ipWhitelist with
      | .error e => .error e
      | .ok wl =>
          match parseCIDRList cidrOk LoadError.invalidSuperAdminCIDR
              cfg.superAdminIPs with
          | .error e => .error e
          | .ok sa =>
              .ok { users := userMap, superAdmin := findSuperAdmin userMap,
                    whitelistOk := wl, superAdminOk := sa }

/-! ### Admission semaphore (`internal/proxy/server.go`, `NewServer`/`Start`)

`connSem` is a buffered channel of capacity `cfg.MaxConns`; the accept loop
does a non-blocking try-send, so an accept either takes a slot immediately or
is closed on the spot with the rejection counter bumped.  Handlers release
their slot when they finish. -/

structure AdmState where
  inFlight : ℕ
  rejected : ℕ
  deriving Repr, DecidableEq

inductive AdmEvent where
  | accept : AdmEvent
  | release : AdmEvent
  deriving Repr, DecidableEq

/-- What the accept loop does with one incoming connection or one handler
completion. -/
inductive AdmAction where
  | admitted : AdmAction
  | rejectedClosed : AdmAction
  | released : AdmAction
  deriving Repr, DecidableEq

/-- One step of the accept loop / handler completion.  `accept`: the
non-blocking `s.connSem <- struct{}{}` succeeds exactly when occupancy is
below capacity, else the connection is closed at once and
`MetricConnectionsRejected` is incremented.  `release`: `<-s.connSem` when a
handler returns. -/
def admStep (maxConns : ℕ) (s : AdmState) : AdmEvent → AdmState × AdmAction
  | .accept =>
      if s.inFlight < maxConns then
        ({ s with inFlight := s.inFlight + 1 }, .admitted)
      else ({ s with rejected := s.rejected + 1 }, .rejectedClosed)
  | .release => ({ s with inFlight := s.inFlight - 1 }, .released)

/-- Run the accept loop over a whole event trace from the initial state. -/
def admRun (maxConns : ℕ) (events : List AdmEvent) : AdmState :=
  events.foldl (fun s e => (admStep maxConns s e).1) ⟨0, 0⟩

/-! ### HTTP proxy handler (`internal/httpproxy/server.go`, `handleRequest`)

The handler's calls into the user store and the bandwidth tracker are
oracles here (their own behavior is verified separately); the record below
carries one field per call site, and `handleRequest` mirrors the branch
structure of the source exactly. -/

/-- A user as the HTTP handler sees it (the full struct lives outside
`src/`; only the fields the handler reads are modelled). -/
structure HUser where
  username : String
  role : String
  deriving Repr, DecidableEq

/-- The outcome of each call the handler makes, in source order. -/
structure ReqCtx where
  isPacPath : Bool
  ipAllowed : Bool
  creds : Option (String × String)
  validUser : Option HUser
  isSuperAdminIP : Bool
  rateOk : Bool
  expiryOk : Bool
  bandwidthPresent : Bool
  bandwidthOk : Bool
  connOk : Bool
  deriving Repr, DecidableEq

/-- What the handler does with the request. -/
inductive HttpAction where
  | pacServed : HttpAction
  | respond : ℕ → Bool → HttpAction   -- status, Proxy-Authenticate header set
  | proxied : HUser → HttpAction      -- fell through to CONNECT / forward
  deriving Repr, DecidableEq

/-- `handleRequest`, short-circuiting in source order: PAC path; IP
whitelist (403); absent credentials (407 + `Proxy-Authenticate`); invalid
credentials (407 + `Proxy-Authenticate`); then, unless the user's role is
`super_admin` and the client IP is in the super-admin CIDR set: rate limit
(429), account expiry (403), bandwidth cap (403, only with a tracker
present), concurrent-connection limit (429, only with a tracker present). -/
def handleRequest (c : ReqCtx) : HttpAction :=
  if c.isPacPath then .pacServed
  else if ¬ c.ipAllowed then .respond 403 false
  else match c.creds with
  | none => .respond 407 true
  | some _ =>
      match c.validUser with
      | none => .respond 407 true
      | some user =>
          let isSuperAdmin := user.role = "super_admin" ∧ c.isSuperAdminIP
          if ¬ isSuperAdmin ∧ ¬ c.rateOk then .respond 429 false
          else if ¬ isSuperAdmin ∧ ¬ c.expiryOk then .respond 403 false
          else if ¬ isSuperAdmin ∧ c.bandwidthPresent ∧ ¬ c.bandwidthOk then
            .respond 403 false
          else if ¬ isSuperAdmin ∧ c.bandwidthPresent ∧ ¬ c.connOk then
            .respond 429 false
          else .proxied user

/-! ### SOCKS5 method negotiation (`handleMethodNegotiation` and its caller)

The connection input is a byte list consumed front to back by
`io.ReadFull`; the result records the bytes written back to the client and
whether the connection proceeds to RFC 1929 sub-negotiation (carrying the
unread remainder) or is closed. -/

inductive NegOutcome where
  | toAuth : List ℕ → NegOutcome     -- replied 05 02, remainder for auth
  | closedErr : NegOutcome           -- negotiation error, connection closed
  deriving Repr, DecidableEq

structure NegResult where
  written : List ℕ
  outcome : NegOutcome
  deriving Repr, DecidableEq

/-- `handleMethodNegotiation`: read 2 bytes (version, method count); require
version 5; read the method bytes; if `0x02` is among them reply `05 02` and
hand off to user/pass authentication; otherwise reply `05 FF` and fail. -/
def handleMethodNegotiation (input : List ℕ) : NegResult :=
  if input.length < 2 then { written := [], outcome := .closedErr }
  else
    let ver := byteAt input 0
    let numMethods := byteAt input 1
    if ver ≠ 5 then { written := [], outcome := .closedErr }
    else if input.length < 2 + numMethods then
      { written := [], outcome := .closedErr }
    else
      let methods := (input.drop 2).take numMethods
      if 2 ∈ methods then
        { written := [5, 2], outcome := .toAuth (input.drop (2 + numMethods)) }
      else { written := [5, 0xFF], outcome := .closedErr }

/-- The negotiation stage of `handleConnection`: the source calls
`handleMethodNegotiation` unconditionally ("Always require username/password
authentication"); `handleMethodNegotiationNoAuth` exists but has no caller,
so the client's super-admin-CIDR status never reaches this stage. -/
def connectionNegotiation (isSuperAdminCIDRClient : Bool) (input : List ℕ) :
    NegResult :=
  handleMethodNegotiation input

/-! ### Relay primitives

Each copy direction is a deterministic function of a script of iteration
outcomes: bytes read `nr`, read error flag, bytes the destination accepted
`nw`, write error flag.  A script is the sequence of iterations the loop
executes; cancellation is not modelled (the context is taken as live).
`ConnOp` records the operations performed on the destination stream so that the
presence or absence of a half-close is part of the embedding. -/

structure CopyIter where
  nr : ℕ
  rerr : Bool
  nw : ℕ
  werr : Bool
  deriving Repr, DecidableEq

inductive ConnOp where
  | write : ℕ → ConnOp
  | closeWrite : ConnOp
  deriving Repr, DecidableEq

/-- The byte counter accumulated by the Signal engine's `copyData` loop:
on `nr > 0` write and add `nw` when positive, stop on write error; then
stop on read error. -/
def copyDataBytes : List CopyIter → ℕ
  | [] => 0
  | it :: rest =>
      if 0 < it.nr then
        let add := if 0 < it.nw then it.nw else 0
        if it.werr then add
        else if it.rerr then add
        else add + copyDataBytes rest
      else if it.rerr then 0
      else copyDataBytes rest

/-- The destination-stream operations `copyData` performs: the writes, and
nothing else — the loop body has no half-close. -/
def copyDataOps : List CopyIter → List ConnOp
  | [] => []
  | it :: rest =>
      if 0 < it.nr then
        if it.werr ∨ it.rerr then [ConnOp.write it.nw]
        else ConnOp.write it.nw :: copyDataOps rest
      else if it.rerr then []
      else copyDataOps rest

/-- The bytes-written count returned by `io.Copy` / `io.CopyBuffer` (used by
the CONNECT and SOCKS5 relays): on `nr > 0` write and add `nw`, stop on
write error or short write; then stop on read error. -/
def ioCopyBytes : List CopyIter → ℕ
  | [] => 0
  | it :: rest =>
      if 0 < it.nr then
        if it.werr ∨ it.nw < it.nr then it.nw
        else it.nw + ioCopyBytes rest
      else if it.rerr then 0
      else ioCopyBytes rest

/-- The write operations `io.Copy` performs on the destination. -/
def ioCopyOps : List CopyIter → List ConnOp
  | [] => []
  | it :: rest =>
      if 0 < it.nr then
        if it.werr ∨ it.nw < it.nr then [ConnOp.write it.nw]
        else ConnOp.write it.nw :: ioCopyOps rest
      else if it.rerr then []
      else ioCopyOps rest

/-- `handleConnect`'s `copyBuf` task: `io.CopyBuffer`, then half-close the
destination's write side when the transport supports it (`*net.TCPConn`). -/
def copyBufOps (dstSupportsHalfClose : Bool) (s : List CopyIter) :
    List ConnOp :=
  ioCopyOps s ++ if dstSupportsHalfClose then [ConnOp.closeWrite] else []

/-- The bytes a script actually hands to the destination's `Write`, one
entry per performed write. -/
def writesOf (ops : List ConnOp) : List ℕ :=
  ops.foldr (fun op acc => match op with
    | ConnOp.write n => n :: acc
    | ConnOp.closeWrite => acc) []

/-- One relay invocation: per-direction byte counters, the operation trace
each copy task performs on its destination, and how many completions the
caller receives from the `done` channel before it goes on to close both
streams (deferred closes run at function exit). -/
structure RelayOutcome where
  upBytes : ℕ
  downBytes : ℕ
  upOps : List ConnOp
  downOps : List ConnOp
  completionsAwaited : ℕ
  deriving Repr, DecidableEq

/-- The Signal engine relay (`HandleConnection`): two `copyData` tasks, a
single `select { case <-done: case <-ctx.Done(): }` — one completion is
received before metrics are recorded and the deferred closes run. -/
def signalRelay (su sd : List CopyIter) : RelayOutcome :=
  { upBytes := copyDataBytes su, downBytes := copyDataBytes sd,
    upOps := copyDataOps su, downOps := copyDataOps sd,
    completionsAwaited := 1 }

/-- The HTTP CONNECT relay (`handleConnect`): two `copyBuf` tasks, then
`<-done` twice — both completions are received before the streams close. -/
def connectRelay (hcUp hcDown : Bool) (su sd : List CopyIter) :
    RelayOutcome :=
  { upBytes := ioCopyBytes su, downBytes := ioCopyBytes sd,
    upOps := copyBufOps hcUp su, downOps := copyBufOps hcDown sd,
    completionsAwaited := 2 }

/-- The SOCKS5 relay (`handleConnection` in the SOCKS5 engine): two
`io.Copy` tasks, a single `<-done`. -/
def socksRelay (su sd : List CopyIter) : RelayOutcome :=
  { upBytes := ioCopyBytes su, downBytes := ioCopyBytes sd,
    upOps := ioCopyOps su, downOps := ioCopyOps sd,
    completionsAwaited := 1 }

/-- Whether a load attempt succeeded (no error of any kind). -/
def loadOk (r : Except LoadError Catalog) : Bool :=
  match r with
  | .ok _ => true
  | .error _ => false

/-! ## Theorems -/

/-! ### C10 — unknown users are rate-limited -/

/-- C10: for every username not present in the store's catalog of enabled
users (unknown, or disabled and hence never loaded), `CheckRateLimit`
returns `false`: the request is reported as rate-limited rather than
treated as unlimited. -/
theorem checkRateLimit_unknown_rejected (s : StoreState) (username : String)
    (elapsed : ℚ) (h : mapLookup s.users (goToLower username) = none) :
    (checkRateLimit s username elapsed).1 = false := by
  unfold checkRateLimit
  rw [h]

/-- Witness for C10 at a concrete store (empty catalog) and username. -/
theorem checkRateLimit_unknown_rejected_witness :
    mapLookup (StoreState.users ⟨[], ⟨[]⟩⟩) (goToLower "bob") = none ∧
      (checkRateLimit ⟨[], ⟨[]⟩⟩ "bob" 0).1 = false :=
  ⟨rfl, checkRateLimit_unknown_rejected ⟨[], ⟨[]⟩⟩ "bob" 0 rfl⟩

/-! ### C4 — admission never exceeds `max_conns`; full accepts are rejected -/

theorem admStep_inFlight_le (maxConns : ℕ) (s : AdmState) (e : AdmEvent)
    (h : s.inFlight ≤ maxConns) :
    ((admStep maxConns s e).1).inFlight ≤ maxConns := by
  cases e
  · simp only [admStep]
    split_ifs with hlt
    · simpa using hlt
    · simpa using h
  · simpa [admStep] using Nat.le_trans (Nat.sub_le _ _) h

theorem admRun_go_le (maxConns : ℕ) (events : List AdmEvent) (s : AdmState)
    (h : s.inFlight ≤ maxConns) :
    (events.foldl (fun s e => (admStep maxConns s e).1) s).inFlight ≤
      maxConns := by
  induction events generalizing s with
  | nil => exact h
  | cons e rest ih =>
      exact ih _ (admStep_inFlight_le maxConns s e h)

/-- C4: over every event trace of the Signal-engine accept loop, the number
of admitted in-flight connections stays at most `max_conns`; and at a state
with no free slot, an accept is closed at once (`rejectedClosed`, the
connection is never queued), leaves the in-flight count unchanged, and
increments the rejection counter by exactly one. -/
theorem admission_bounded_and_sheds (maxConns : ℕ) (events : List AdmEvent)
    (s : AdmState) (hfull : ¬ s.inFlight < maxConns) :
    (admRun maxConns events).inFlight ≤ maxConns ∧
      admStep maxConns s .accept =
        ({ inFlight := s.inFlight, rejected := s.rejected + 1 },
          .rejectedClosed) := by
  constructor
  · exact admRun_go_le maxConns events ⟨0, 0⟩ (Nat.zero_le _)
  · simp [admStep, hfull]

/-- Witness for C4 at capacity 2, a concrete trace, and a full state. -/
theorem admission_bounded_and_sheds_witness :
    ¬ (AdmState.inFlight ⟨2, 0⟩) < 2 ∧
      ((admRun 2 [.accept, .accept, .accept, .release, .accept]).inFlight ≤ 2 ∧
        admStep 2 ⟨2, 0⟩ .accept = (⟨2, 1⟩, .rejectedClosed)) :=
  ⟨by decide, admission_bounded_and_sheds 2 _ ⟨2, 0⟩ (by decide)⟩

/-! ### C2 — token-bucket capacity, refill, consumption, and the R = 0 bypass -/

/-- C2: for a configured rate `R > 0` the bucket built by `SetLimit` has
capacity `max(R/6, 10)`, refill rate `R/60` per second, and starts full;
every `Allow` call refills by the elapsed seconds clamped to capacity (so
tokens never exceed capacity), consumes one token exactly when at least one
is available after the refill and returns `false` otherwise; and a user with
`R = 0` is never rate-limited by `CheckRateLimit`. -/
theorem tokenBucket_spec (rpm : ℤ) (hrpm : 0 < rpm) (b : TokenBucket)
    (elapsed : ℚ) (he : 0 ≤ elapsed) (s : StoreState) (username : String)
    (user : User) (hu : mapLookup s.users (goToLower username) = some user)
    (h0 : user.rateLimitRPM = 0) :
    ((setLimitBucket rpm).maxTokens = max ((rpm : ℚ) / 6) 10 ∧
      (setLimitBucket rpm).refillRate = (rpm : ℚ) / 60 ∧
      (setLimitBucket rpm).tokens = (setLimitBucket rpm).maxTokens) ∧
    ((allowStep b elapsed).2.tokens ≤ b.maxTokens ∧
      (allowStep b elapsed).2.maxTokens = b.maxTokens ∧
      (allowStep b elapsed).2.refillRate = b.refillRate ∧
      allowStep b elapsed =
        (if 1 ≤ min (b.tokens + elapsed * b.refillRate) b.maxTokens then
          (true, ⟨min (b.tokens + elapsed * b.refillRate) b.maxTokens - 1,
            b.maxTokens, b.refillRate⟩)
        else
          (false, ⟨min (b.tokens + elapsed * b.refillRate) b.maxTokens,
            b.maxTokens, b.refillRate⟩))) ∧
    (checkRateLimit s username elapsed).1 = true := by
  have hmin : ∀ t : ℚ, (if b.maxTokens < t then b.maxTokens else t) =
      min t b.maxTokens := by
    intro t
    rcases le_or_lt t b.maxTokens with hle | hlt
    · rw [min_eq_left hle, if_neg (not_lt.mpr hle)]
    · rw [min_eq_right hlt.le, if_pos hlt]
  have heq : allowStep b elapsed =
      (if 1 ≤ min (b.tokens + elapsed * b.refillRate) b.maxTokens then
        (true, ⟨min (b.tokens + elapsed * b.refillRate) b.maxTokens - 1,
          b.maxTokens, b.refillRate⟩)
      else
        (false, ⟨min (b.tokens + elapsed * b.refillRate) b.maxTokens,
          b.maxTokens, b.refillRate⟩)) := by
    unfold allowStep
    simp only [hmin]
  have hle' : (allowStep b elapsed).2.tokens ≤ b.maxTokens := by
    rw [heq]
    split_ifs with h1
    · show min (b.tokens + elapsed * b.refillRate) b.maxTokens - 1 ≤
        b.maxTokens
      have := min_le_right (b.tokens + elapsed * b.refillRate) b.maxTokens
      linarith
    · exact min_le_right _ _
  refine ⟨⟨?_, rfl, rfl⟩, ⟨hle', ?_, ?_, heq⟩, ?_⟩
  · unfold setLimitBucket
    rcases lt_or_le ((rpm : ℚ) / 6) 10 with hlt | hle
    · simp only [if_pos hlt]
      exact (max_eq_right hlt.le).symm
    · simp only [if_neg (not_lt.mpr hle)]
      exact (max_eq_left hle).symm
  · rw [heq]
    split_ifs <;> rfl
  · rw [heq]
    split_ifs <;> rfl
  · unfold checkRateLimit
    rw [hu]
    simp [h0]

/-- Witness for C2 at rate 60, a concrete bucket and elapsed time, and a
store holding a rate-unlimited user. -/
theorem tokenBucket_spec_witness :
    (0 : ℤ) < 60 ∧ (0 : ℚ) ≤ 2 ∧
      mapLookup
        (StoreState.users
          ⟨[("zed", ⟨"zed", "user", "h", 0, true⟩)], ⟨[]⟩⟩)
        (goToLower "zed") = some ⟨"zed", "user", "h", 0, true⟩ ∧
      User.rateLimitRPM ⟨"zed", "user", "h", 0, true⟩ = 0 ∧
      (((setLimitBucket 60).maxTokens = max ((60 : ℚ) / 6) 10 ∧
        (setLimitBucket 60).refillRate = (60 : ℚ) / 60 ∧
        (setLimitBucket 60).tokens = (setLimitBucket 60).maxTokens) ∧
      ((allowStep ⟨3, 10, 1⟩ 2).2.tokens ≤ (10 : ℚ) ∧
        (allowStep ⟨3, 10, 1⟩ 2).2.maxTokens = (10 : ℚ) ∧
        (allowStep ⟨3, 10, 1⟩ 2).2.refillRate = (1 : ℚ) ∧
        allowStep ⟨3, 10, 1⟩ 2 =
          (if 1 ≤ min ((3 : ℚ) + 2 * 1) 10 then
            (true, ⟨min ((3 : ℚ) + 2 * 1) 10 - 1, 10, 1⟩)
          else (false, ⟨min ((3 : ℚ) + 2 * 1) 10, 10, 1⟩))) ∧
      (checkRateLimit
        ⟨[("zed", ⟨"zed", "user", "h", 0, true⟩)], ⟨[]⟩⟩ "zed" 2).1 = true) := by
  refine ⟨by norm_num, by norm_num, ?_, rfl, ?_⟩
  · decide
  · exact tokenBucket_spec 60 (by norm_num) ⟨3, 10, 1⟩ 2 (by norm_num)
      ⟨[("zed", ⟨"zed", "user", "h", 0, true⟩)], ⟨[]⟩⟩ "zed"
      ⟨"zed", "user", "h", 0, true⟩ (by decide) rfl

/-! ### C8 — startup restore of the usage file -/

/-- C8: at startup (fresh tracker for the current month), reading a usage
file whose month tag equals the current month restores every user's byte
counters identically while forcing every `active_conns` to 0 and adopts the
tag; a file with a different month tag is discarded and the tracker stays
empty. -/
theorem restore_spec (currentMonth : String) (f : UsageFileData)
    (us : List (String × UserUsage)) (hus : f.users = some us) :
    (f.month = currentMonth →
      loadFromDisk (freshTracker currentMonth) (some f) currentMonth =
        { users := us.map fun p => (p.1, { p.2 with activeConns := 0 }),
          month := f.month }) ∧
    (f.month ≠ currentMonth →
      loadFromDisk (freshTracker currentMonth) (some f) currentMonth =
        freshTracker currentMonth) := by
  constructor
  · intro hm
    simp [loadFromDisk, hus, hm]
  · intro hm
    simp [loadFromDisk, hus, hm]

/-- Witness for C8: a concrete two-user file restored in its own month, and
the same file discarded in a later month. -/
theorem restore_spec_witness :
    ((⟨"2026-02", some [("a", ⟨7, 5, 12, "t", 3⟩), ("b", ⟨1, 0, 1, "t", 2⟩)]⟩ :
        UsageFileData).users =
      some [("a", ⟨7, 5, 12, "t", 3⟩), ("b", ⟨1, 0, 1, "t", 2⟩)]) ∧
    (((⟨"2026-02", some [("a", ⟨7, 5, 12, "t", 3⟩), ("b", ⟨1, 0, 1, "t", 2⟩)]⟩ :
        UsageFileData).month = "2026-02" →
      loadFromDisk (freshTracker "2026-02")
        (some ⟨"2026-02", some [("a", ⟨7, 5, 12, "t", 3⟩), ("b", ⟨1, 0, 1, "t", 2⟩)]⟩)
        "2026-02" =
        { users := [("a", ⟨7, 5, 12, "t", 0⟩), ("b", ⟨1, 0, 1, "t", 0⟩)],
          month := "2026-02" }) ∧
    ((⟨"2026-02", some [("a", ⟨7, 5, 12, "t", 3⟩), ("b", ⟨1, 0, 1, "t", 2⟩)]⟩ :
        UsageFileData).month ≠ "2026-02" →
      loadFromDisk (freshTracker "2026-02")
        (some ⟨"2026-02", some [("a", ⟨7, 5, 12, "t", 3⟩), ("b", ⟨1, 0, 1, "t", 2⟩)]⟩)
        "2026-02" = freshTracker "2026-02")) :=
  ⟨rfl, restore_spec "2026-02"
    ⟨"2026-02", some [("a", ⟨7, 5, 12, "t", 3⟩), ("b", ⟨1, 0, 1, "t", 2⟩)]⟩
    [("a", ⟨7, 5, 12, "t", 3⟩), ("b", ⟨1, 0, 1, "t", 2⟩)] rfl⟩

/-! ### C9 — per-user counter invariant under tracker operations -/

theorem usageUpdate_inv (m : List (String × UserUsage)) (k nowStr : String)
    (f : UserUsage → UserUsage) (hm : ∀ p ∈ m, UsageInv p.2)
    (hf : ∀ u, UsageInv u → UsageInv (f u)) :
    ∀ p ∈ usageUpdate m k nowStr f, UsageInv p.2 := by
  induction m with
  | nil =>
      intro p hp
      simp only [usageUpdate, List.mem_singleton] at hp
      subst hp
      exact hf _ ⟨by simp, by simp⟩
  | cons hd tl ih =>
      intro p hp
      simp only [usageUpdate] at hp
      split_ifs at hp with hk
      · rcases List.mem_cons.mp hp with h | h
        · subst h
          exact hf _ (hm hd (List.mem_cons_self _ _))
        · exact hm _ (List.mem_cons_of_mem _ h)
      · rcases List.mem_cons.mp hp with h | h
        · subst h
          exact hm _ (List.mem_cons_self _ _)
        · exact ih (fun q hq => hm q (List.mem_cons_of_mem _ hq)) _ h

theorem usageLookup_update (m : List (String × UserUsage)) (k nowStr : String)
    (f : UserUsage → UserUsage) (r : UserUsage)
    (h : usageLookup m k = some r) :
    usageLookup (usageUpdate m k nowStr f) k = some (f r) := by
  induction m with
  | nil => simp [usageLookup] at h
  | cons hd tl ih =>
      simp only [usageLookup] at h
      by_cases hk : hd.1 = k
      · rw [if_pos hk] at h
        cases h
        simp [usageUpdate, hk, usageLookup]
      · rw [if_neg hk] at h
        simp [usageUpdate, hk, usageLookup, ih h]

/-- C9 (amended): the invariant `bytes_up + bytes_down = total_bytes ∧
active_conns ≥ 0` is preserved by `RecordBytes`, the monthly reset,
`IncrementConns` and `DecrementConns`; a decrement at `active_conns = 0`
leaves the record unchanged (never negative).  `loadFromDisk` always leaves
every `active_conns` at 0 or keeps the prior state, but adopts the file's
byte counters verbatim, so the sum equation holds after a restore only when
the file's own records satisfy it. -/
theorem trackerInv_preserved (t : TrackerState)
    (currentMonth nowStr username : String) (up down : ℤ)
    (file : Option UsageFileData) (hinv : TrackerInv t) :
    TrackerInv (recordBytes currentMonth nowStr username up down t) ∧
    TrackerInv (checkMonthlyReset currentMonth nowStr t) ∧
    TrackerInv (incrementConns nowStr username t) ∧
    TrackerInv (decrementConns nowStr username t) ∧
    (∀ r : UserUsage, usageLookup t.users username = some r →
      r.activeConns = 0 →
      usageLookup (decrementConns nowStr username t).users username =
        some r) ∧
    (∀ p ∈ (loadFromDisk t file currentMonth).users, 0 ≤ p.2.activeConns) ∧
    (∀ fm us, file = some ⟨fm, some us⟩ →
      (∀ p ∈ us, p.2.bytesUp + p.2.bytesDown = p.2.totalBytes) →
      TrackerInv (loadFromDisk t file currentMonth)) := by
  have hreset : TrackerInv (checkMonthlyReset currentMonth nowStr t) := by
    unfold checkMonthlyReset
    split_ifs with hm
    · intro p hp
      simp only [List.mem_map] at hp
      obtain ⟨q, hq, rfl⟩ := hp
      exact ⟨by simp, (hinv q hq).2⟩
    · exact hinv
  refine ⟨?_, hreset, ?_, ?_, ?_, ?_, ?_⟩
  · unfold recordBytes
    refine usageUpdate_inv _ _ _ _ hreset fun u hu => ⟨?_, hu.2⟩
    show u.bytesUp + up + (u.bytesDown + down) =
      u.totalBytes + (up + down)
    have := hu.1
    omega
  · refine usageUpdate_inv _ _ _ _ hinv fun u hu => ⟨hu.1, ?_⟩
    show (0 : ℤ) ≤ u.activeConns + 1
    have := hu.2
    omega
  · refine usageUpdate_inv _ _ _ _ hinv fun u hu => ?_
    by_cases h : 0 < u.activeConns
    · rw [if_pos h]
      refine ⟨hu.1, ?_⟩
      show (0 : ℤ) ≤ u.activeConns - 1
      omega
    · rw [if_neg h]
      exact hu
  · intro r hr hr0
    unfold decrementConns
    rw [usageLookup_update t.users username nowStr _ r hr]
    have hneg : ¬ (0 : ℤ) < r.activeConns := by omega
    rw [if_neg hneg]
  · intro p hp
    unfold loadFromDisk at hp
    match file with
    | none => exact (hinv p hp).2
    | some f =>
        match hfu : f.users with
        | some us =>
            simp only [hfu] at hp
            split_ifs at hp with hm
            · simp only [List.mem_map] at hp
              obtain ⟨q, _, rfl⟩ := hp
              simp
            · exact (hinv p hp).2
        | none =>
            simp only [hfu] at hp
            exact (hinv p hp).2
  · intro fm us hfile hsum
    subst hfile
    unfold loadFromDisk
    simp only
    split_ifs with hm
    · intro p hp
      simp only [List.mem_map] at hp
      obtain ⟨q, hq, rfl⟩ := hp
      exact ⟨hsum q hq, by simp⟩
    · exact hinv

/-- Witness for C9's amended theorem at a concrete consistent tracker state
and file. -/
theorem trackerInv_preserved_witness :
    TrackerInv ⟨[("a", ⟨4, 6, 10, "t", 1⟩)], "2026-02"⟩ ∧
    (TrackerInv (recordBytes "2026-03" "n" "a" 3 4
        ⟨[("a", ⟨4, 6, 10, "t", 1⟩)], "2026-02"⟩) ∧
    TrackerInv (checkMonthlyReset "2026-03" "n"
        ⟨[("a", ⟨4, 6, 10, "t", 1⟩)], "2026-02"⟩) ∧
    TrackerInv (incrementConns "n" "a"
        ⟨[("a", ⟨4, 6, 10, "t", 1⟩)], "2026-02"⟩) ∧
    TrackerInv (decrementConns "n" "a"
        ⟨[("a", ⟨4, 6, 10, "t", 1⟩)], "2026-02"⟩) ∧
    (∀ r : UserUsage,
      usageLookup (TrackerState.users ⟨[("a", ⟨4, 6, 10, "t", 1⟩)], "2026-02"⟩)
          "a" = some r →
      r.activeConns = 0 →
      usageLookup (decrementConns "n" "a"
          ⟨[("a", ⟨4, 6, 10, "t", 1⟩)], "2026-02"⟩).users "a" = some r) ∧
    (∀ p ∈ (loadFromDisk ⟨[("a", ⟨4, 6, 10, "t", 1⟩)], "2026-02"⟩
        (some ⟨"2026-03", some [("b", ⟨2, 3, 5, "t", 9⟩)]⟩) "2026-03").users,
      0 ≤ p.2.activeConns) ∧
    (∀ fm us,
      (some ⟨"2026-03", some [("b", ⟨2, 3, 5, "t", 9⟩)]⟩ :
          Option UsageFileData) = some ⟨fm, some us⟩ →
      (∀ p ∈ us, p.2.bytesUp + p.2.bytesDown = p.2.totalBytes) →
      TrackerInv (loadFromDisk ⟨[("a", ⟨4, 6, 10, "t", 1⟩)], "2026-02"⟩
        (some ⟨"2026-03", some [("b", ⟨2, 3, 5, "t", 9⟩)]⟩) "2026-03"))) :=
  ⟨by decide, trackerInv_preserved ⟨[("a", ⟨4, 6, 10, "t", 1⟩)], "2026-02"⟩
    "2026-03" "n" "a" 3 4 (some ⟨"2026-03", some [("b", ⟨2, 3, 5, "t", 9⟩)]⟩)
    (by decide)⟩

/-- C9 counterexample: `loadFromDisk` ("restore") is listed among the
invariant-preserving operations, but restoring a same-month file whose
record has `bytes_up + bytes_down ≠ total_bytes` produces a state violating
the invariant, starting from a state satisfying it. -/
theorem trackerInv_restore_cex :
    TrackerInv (freshTracker "2026-02") ∧
    ¬ TrackerInv (loadFromDisk (freshTracker "2026-02")
      (some ⟨"2026-02", some [("u", ⟨1, 1, 3, "t", 5⟩)]⟩) "2026-02") := by
  decide

/-! ### C5 — what `LoadFromFile` does and does not reject -/

theorem parseCIDRList_ok (cidrOk : String → Bool) (mk : String → LoadError)
    (l : List String) (h : ∀ x ∈ l, cidrOk (normalizeCIDR x) = true) :
    parseCIDRList cidrOk mk l = .ok l := by
  induction l with
  | nil => rfl
  | cons c rest ih =>
      have hc := h c (List.mem_cons_self _ _)
      have hrest := ih fun x hx => h x (List.mem_cons_of_mem _ hx)
      simp [parseCIDRList, hc, hrest]

theorem parseCIDRList_error (cidrOk : String → Bool) (mk : String → LoadError)
    (l : List String) (c : String) (hc : c ∈ l)
    (hbad : cidrOk (normalizeCIDR c) = false) :
    ∃ e, parseCIDRList cidrOk mk l = .error e := by
  induction l with
  | nil => simp at hc
  | cons hd rest ih =>
      rcases List.mem_cons.mp hc with h | h
      · subst h
        exact ⟨mk c, by simp [parseCIDRList, hbad]⟩
      · by_cases hhd : cidrOk (normalizeCIDR hd) = true
        · obtain ⟨e, he⟩ := ih h
          exact ⟨e, by simp [parseCIDRList, hhd, he]⟩
        · exact ⟨mk hd, by simp [parseCIDRList,
            Bool.eq_false_iff.mpr hhd]⟩

/-- C5 (amended): `load` fails on malformed JSON and on any invalid CIDR in
either list, but case-folded username collisions are NOT rejected (the later
entry silently overwrites the earlier in the catalog) and multiple
`super_admin` users are NOT rejected: with all CIDRs valid the load succeeds
for every users list whatsoever. -/
theorem loadFromFile_spec (cidrOk : String → Bool) (cfg : UsersConfig)
    (c c' : String) :
    loadFromFile none cidrOk = .error .parseFailed ∧
    (c ∈ cfg.ipWhitelist → cidrOk (normalizeCIDR c) = false →
      ∃ e, loadFromFile (some cfg) cidrOk = .error e) ∧
    ((∀ x ∈ cfg.ipWhitelist, cidrOk (normalizeCIDR x) = true) →
      c' ∈ cfg.superAdminIPs → cidrOk (normalizeCIDR c') = false →
      ∃ e, loadFromFile (some cfg) cidrOk = .error e) ∧
    ((∀ x ∈ cfg.ipWhitelist, cidrOk (normalizeCIDR x) = true) →
      (∀ x ∈ cfg.superAdminIPs, cidrOk (normalizeCIDR x) = true) →
      loadFromFile (some cfg) cidrOk =
        .ok { users := buildUserMap cfg.users,
              superAdmin := findSuperAdmin (buildUserMap cfg.users),
              whitelistOk := cfg.ipWhitelist,
              superAdminOk := cfg.superAdminIPs }) := by
  refine ⟨rfl, ?_, ?_, ?_⟩
  · intro hc hbad
    obtain ⟨e, he⟩ :=
      parseCIDRList_error cidrOk LoadError.invalidWhitelistCIDR
        cfg.ipWhitelist c hc hbad
    exact ⟨e, by simp [loadFromFile, he]⟩
  · intro hwl hc hbad
    obtain ⟨e, he⟩ :=
      parseCIDRList_error cidrOk LoadError.invalidSuperAdminCIDR
        cfg.superAdminIPs c' hc hbad
    have hok := parseCIDRList_ok cidrOk LoadError.invalidWhitelistCIDR
      cfg.ipWhitelist hwl
    exact ⟨e, by simp [loadFromFile, hok, he]⟩
  · intro hwl hsa
    have h1 := parseCIDRList_ok cidrOk LoadError.invalidWhitelistCIDR
      cfg.ipWhitelist hwl
    have h2 := parseCIDRList_ok cidrOk LoadError.invalidSuperAdminCIDR
      cfg.superAdminIPs hsa
    simp [loadFromFile, h1, h2]

/-- Witness for C5's amended theorem: a malformed document fails; a bad
whitelist CIDR fails; a bad super-admin CIDR fails; a clean config loads. -/
theorem loadFromFile_spec_witness :
    (loadFromFile none (fun s => if s = "bad/32" then false else true) = .error .parseFailed ∧
      ("bad" ∈ (⟨[], ["bad"], []⟩ : UsersConfig).ipWhitelist →
        (fun s => if s = "bad/32" then false else true) (normalizeCIDR "bad") = false →
        ∃ e, loadFromFile (some ⟨[], ["bad"], []⟩)
          (fun s => if s = "bad/32" then false else true) = .error e) ∧
      ((∀ x ∈ (⟨[], ["bad"], []⟩ : UsersConfig).ipWhitelist,
          (fun s => if s = "bad/32" then false else true) (normalizeCIDR x) = true) →
        "ok" ∈ (⟨[], ["bad"], []⟩ : UsersConfig).superAdminIPs →
        (fun s => if s = "bad/32" then false else true) (normalizeCIDR "ok") = false →
        ∃ e, loadFromFile (some ⟨[], ["bad"], []⟩)
          (fun s => if s = "bad/32" then false else true) = .error e) ∧
      ((∀ x ∈ (⟨[], ["bad"], []⟩ : UsersConfig).ipWhitelist,
          (fun s => if s = "bad/32" then false else true) (normalizeCIDR x) = true) →
        (∀ x ∈ (⟨[], ["bad"], []⟩ : UsersConfig).superAdminIPs,
          (fun s => if s = "bad/32" then false else true) (normalizeCIDR x) = true) →
        loadFromFile (some ⟨[], ["bad"], []⟩) (fun s => if s = "bad/32" then false else true) =
          .ok { users := buildUserMap [],
                superAdmin := findSuperAdmin (buildUserMap []),
                whitelistOk := ["bad"], superAdminOk := [] })) ∧
    ("bad" ∈ (⟨[], ["bad"], []⟩ : UsersConfig).ipWhitelist ∧
      (fun s => if s = "bad/32" then false else true) (normalizeCIDR "bad") = false) :=
  ⟨loadFromFile_spec (fun s => if s = "bad/32" then false else true) ⟨[], ["bad"], []⟩ "bad" "ok",
    by decide⟩

/-- C5 counterexample: two enabled users whose usernames collide after
case-folding, both with role `super_admin` — the claim requires a
`DuplicateUser` error and a uniqueness check, but the load succeeds. -/
theorem loadFromFile_duplicate_cex :
    goToLower "Alice" = goToLower "alice" ∧
    (⟨"Alice", "super_admin", "h1", 0, true⟩ : User).enabled = true ∧
    (⟨"alice", "super_admin", "h2", 0, true⟩ : User).enabled = true ∧
    loadOk (loadFromFile
      (some ⟨[⟨"Alice", "super_admin", "h1", 0, true⟩,
              ⟨"alice", "super_admin", "h2", 0, true⟩], [], []⟩)
      (fun _ => true)) = true := by
  decide

/-! ### C6 — HTTP handler check order and statuses -/

/-- C6: with the PAC path not taken and the client IP allowed, the handler
short-circuits in source order: absent Basic credentials give 407 with a
`Proxy-Authenticate` header; invalid credentials give 407; a `super_admin`
user from a super-admin CIDR IP skips every remaining check and is proxied;
otherwise a failed rate limit gives 429, then a failed expiry check 403,
then a failed bandwidth-cap check 403, then a failed connection-limit check
429, and a request passing them all is proxied. -/
theorem handleRequest_spec (c : ReqCtx) (hpac : c.isPacPath = false)
    (hip : c.ipAllowed = true) :
    (c.creds = none → handleRequest c = .respond 407 true) ∧
    (∀ p, c.creds = some p → c.validUser = none →
      handleRequest c = .respond 407 true) ∧
    (∀ p u, c.creds = some p → c.validUser = some u →
      ((u.role = "super_admin" → c.isSuperAdminIP = true →
        handleRequest c = .proxied u) ∧
      (¬ (u.role = "super_admin" ∧ c.isSuperAdminIP = true) →
        ((c.rateOk = false → handleRequest c = .respond 429 false) ∧
        (c.rateOk = true → c.expiryOk = false →
          handleRequest c = .respond 403 false) ∧
        (c.rateOk = true → c.expiryOk = true → c.bandwidthPresent = true →
          c.bandwidthOk = false → handleRequest c = .respond 403 false) ∧
        (c.rateOk = true → c.expiryOk = true → c.bandwidthPresent = true →
          c.bandwidthOk = true → c.connOk = false →
          handleRequest c = .respond 429 false) ∧
        (c.rateOk = true → c.expiryOk = true → c.bandwidthPresent = true →
          c.bandwidthOk = true → c.connOk = true →
          handleRequest c = .proxied u))))) := by
  refine ⟨?_, ?_, ?_⟩
  · intro hc
    simp [handleRequest, hpac, hip, hc]
  · intro p hc hv
    simp [handleRequest, hpac, hip, hc, hv]
  · intro p u hc hv
    constructor
    · intro hrole hsa
      simp [handleRequest, hpac, hip, hc, hv, hrole, hsa]
    · intro hns
      have hns' : ¬ (u.role = "super_admin" ∧ c.isSuperAdminIP) := by
        intro ⟨h1, h2⟩
        exact hns ⟨h1, h2⟩
      refine ⟨?_, ?_, ?_, ?_, ?_⟩
      · intro hrate
        simp [handleRequest, hpac, hip, hc, hv, hns', hrate]
      · intro hrate hexp
        simp [handleRequest, hpac, hip, hc, hv, hns', hrate, hexp]
      · intro hrate hexp hbp hbw
        simp [handleRequest, hpac, hip, hc, hv, hns', hrate, hexp, hbp, hbw]
      · intro hrate hexp hbp hbw hconn
        simp [handleRequest, hpac, hip, hc, hv, hns', hrate, hexp, hbp, hbw,
          hconn]
      · intro hrate hexp hbp hbw hconn
        simp [handleRequest, hpac, hip, hc, hv, hns', hrate, hexp, hbp, hbw,
          hconn]

/-- Witness for C6 at a concrete request context (valid non-admin user, all
checks passing: the request is proxied). -/
theorem handleRequest_spec_witness :
    (ReqCtx.isPacPath ⟨false, true, some ("alice", "pw"),
        some ⟨"alice", "user"⟩, false, true, true, true, true, true⟩ =
      false) ∧
    (ReqCtx.ipAllowed ⟨false, true, some ("alice", "pw"),
        some ⟨"alice", "user"⟩, false, true, true, true, true, true⟩ =
      true) ∧
    handleRequest ⟨false, true, some ("alice", "pw"),
        some ⟨"alice", "user"⟩, false, true, true, true, true, true⟩ =
      .proxied ⟨"alice", "user"⟩ := by
  refine ⟨rfl, rfl, ?_⟩
  exact (((handleRequest_spec
      ⟨false, true, some ("alice", "pw"), some ⟨"alice", "user"⟩,
        false, true, true, true, true, true⟩ rfl rfl).2.2
      ("alice", "pw") ⟨"alice", "user"⟩ rfl rfl).2
      (by simp)).2.2.2.2 rfl rfl rfl rfl rfl

/-! ### C7 — SOCKS5 method negotiation; no-auth is never accepted -/

/-- C7 (amended): the negotiation stage reads the 2-byte greeting, requires
version 5, reads the advertised methods, replies `05 02` and proceeds to
user/pass sub-negotiation when method `0x02` is offered, and replies
`05 FF` and closes otherwise — and it runs identically for every client:
the no-auth method `0x00` is never accepted, super-admin CIDR or not
(`handleMethodNegotiationNoAuth` has no caller). -/
theorem socks5_negotiation_spec (sa : Bool) (input : List ℕ) :
    connectionNegotiation sa input = handleMethodNegotiation input ∧
    (2 ≤ input.length → byteAt input 0 ≠ 5 →
      handleMethodNegotiation input =
        { written := [], outcome := .closedErr }) ∧
    (2 ≤ input.length → byteAt input 0 = 5 →
      2 + byteAt input 1 ≤ input.length →
      2 ∈ (input.drop 2).take (byteAt input 1) →
      handleMethodNegotiation input =
        { written := [5, 2],
          outcome := .toAuth (input.drop (2 + byteAt input 1)) }) ∧
    (2 ≤ input.length → byteAt input 0 = 5 →
      2 + byteAt input 1 ≤ input.length →
      2 ∉ (input.drop 2).take (byteAt input 1) →
      handleMethodNegotiation input =
        { written := [5, 0xFF], outcome := .closedErr }) := by
  refine ⟨rfl, ?_, ?_, ?_⟩
  · intro hlen hver
    have : ¬ input.length < 2 := by omega
    simp [handleMethodNegotiation, this, hver]
  · intro hlen hver hm hmem
    have h2 : ¬ input.length < 2 := by omega
    have h3 : ¬ input.length < 2 + byteAt input 1 := by omega
    simp [handleMethodNegotiation, h2, h3, hver, hmem]
  · intro hlen hver hm hmem
    have h2 : ¬ input.length < 2 := by omega
    have h3 : ¬ input.length < 2 + byteAt input 1 := by omega
    simp [handleMethodNegotiation, h2, h3, hver, hmem]

/-- Witness for C7's amended theorem: a greeting offering user/pass is
accepted with `05 02`; one offering only no-auth is refused with `05 FF`. -/
theorem socks5_negotiation_spec_witness :
    (2 ≤ [5, 2, 0, 2].length ∧ byteAt [5, 2, 0, 2] 0 = 5 ∧
      2 + byteAt [5, 2, 0, 2] 1 ≤ [5, 2, 0, 2].length ∧
      2 ∈ ([5, 2, 0, 2].drop 2).take (byteAt [5, 2, 0, 2] 1)) ∧
    handleMethodNegotiation [5, 2, 0, 2] =
      { written := [5, 2], outcome := .toAuth [] } :=
  ⟨by decide,
    (socks5_negotiation_spec true [5, 2, 0, 2]).2.2.1 (by decide) (by decide)
      (by decide) (by decide)⟩

/-- C7 counterexample: a client inside the super-admin CIDR set (flag
`true`) offering only the no-auth method `0x00` is still refused with
`05 FF` and closed — no-auth is not accepted for super-admin CIDR clients
(nor anyone else). -/
theorem socks5_noauth_cex :
    connectionNegotiation true [5, 1, 0] =
      { written := [5, 0xFF], outcome := .closedErr } := by
  decide

/-! ### C1 — relay half-close, awaiting both directions, byte accounting -/

theorem writesOf_write (n : ℕ) (ops : List ConnOp) :
    writesOf (ConnOp.write n :: ops) = n :: writesOf ops := rfl

theorem writesOf_append_closeWrite (ops : List ConnOp) :
    writesOf (ops ++ [ConnOp.closeWrite]) = writesOf ops := by
  induction ops with
  | nil => rfl
  | cons op rest ih =>
      cases op <;> simp [writesOf, List.foldr] at ih ⊢ <;> exact ih

theorem copyDataBytes_eq_writes (s : List CopyIter) :
    copyDataBytes s = (writesOf (copyDataOps s)).sum := by
  induction s with
  | nil => rfl
  | cons it rest ih =>
      unfold copyDataBytes copyDataOps
      split_ifs <;> simp_all [writesOf, writesOf_write] <;> omega

theorem ioCopyBytes_eq_writes (s : List CopyIter) :
    ioCopyBytes s = (writesOf (ioCopyOps s)).sum := by
  induction s with
  | nil => rfl
  | cons it rest ih =>
      unfold ioCopyBytes ioCopyOps
      split_ifs <;> simp_all [writesOf, writesOf_write]

theorem copyDataOps_no_closeWrite (s : List CopyIter) :
    ConnOp.closeWrite ∉ copyDataOps s := by
  induction s with
  | nil => simp [copyDataOps]
  | cons it rest ih =>
      unfold copyDataOps
      split_ifs <;> simp_all [writesOf]

theorem ioCopyOps_no_closeWrite (s : List CopyIter) :
    ConnOp.closeWrite ∉ ioCopyOps s := by
  induction s with
  | nil => simp [ioCopyOps]
  | cons it rest ih =>
      unfold ioCopyOps
      split_ifs <;> simp_all [writesOf]

/-- C1 (amended): of the three relay sites, only the HTTP CONNECT relay
half-closes the destination when the transport supports it and receives both
task completions before the streams close; the Signal and SOCKS5 relays
perform no half-close at all and proceed to close both streams after
receiving a single completion.  In all three, each direction's returned
byte counter equals the total number of bytes actually written to that
direction's destination. -/
theorem relay_spec (su sd : List CopyIter) (hcDown : Bool) :
    ((connectRelay true hcDown su sd).completionsAwaited = 2 ∧
      ConnOp.closeWrite ∈ (connectRelay true hcDown su sd).upOps ∧
      (connectRelay true hcDown su sd).upBytes =
        (writesOf (connectRelay true hcDown su sd).upOps).sum ∧
      (connectRelay true hcDown su sd).downBytes =
        (writesOf (connectRelay true hcDown su sd).downOps).sum) ∧
    ((signalRelay su sd).completionsAwaited = 1 ∧
      ConnOp.closeWrite ∉ (signalRelay su sd).upOps ∧
      ConnOp.closeWrite ∉ (signalRelay su sd).downOps ∧
      (signalRelay su sd).upBytes =
        (writesOf (signalRelay su sd).upOps).sum ∧
      (signalRelay su sd).downBytes =
        (writesOf (signalRelay su sd).downOps).sum) ∧
    ((socksRelay su sd).completionsAwaited = 1 ∧
      ConnOp.closeWrite ∉ (socksRelay su sd).upOps ∧
      ConnOp.closeWrite ∉ (socksRelay su sd).downOps ∧
      (socksRelay su sd).upBytes =
        (writesOf (socksRelay su sd).upOps).sum ∧
      (socksRelay su sd).downBytes =
        (writesOf (socksRelay su sd).downOps).sum) := by
  refine ⟨⟨rfl, ?_, ?_, ?_⟩, ⟨rfl, ?_, ?_, ?_, ?_⟩, ⟨rfl, ?_, ?_, ?_, ?_⟩⟩
  · show ConnOp.closeWrite ∈ copyBufOps true su
    simp [copyBufOps]
  · show ioCopyBytes su = (writesOf (copyBufOps true su)).sum
    rw [copyBufOps, if_pos rfl, writesOf_append_closeWrite]
    exact ioCopyBytes_eq_writes su
  · show ioCopyBytes sd = (writesOf (copyBufOps hcDown sd)).sum
    cases hcDown
    · show ioCopyBytes sd = (writesOf (ioCopyOps sd ++ [])).sum
      rw [List.append_nil]
      exact ioCopyBytes_eq_writes sd
    · show ioCopyBytes sd =
        (writesOf (ioCopyOps sd ++ [ConnOp.closeWrite])).sum
      rw [writesOf_append_closeWrite]
      exact ioCopyBytes_eq_writes sd
  · exact copyDataOps_no_closeWrite su
  · exact copyDataOps_no_closeWrite sd
  · exact copyDataBytes_eq_writes su
  · exact copyDataBytes_eq_writes sd
  · exact ioCopyOps_no_closeWrite su
  · exact ioCopyOps_no_closeWrite sd
  · exact ioCopyBytes_eq_writes su
  · exact ioCopyBytes_eq_writes sd

/-- C1 counterexample: a concrete Signal-engine relay session (client sends
4 bytes then EOF; upstream EOF) over half-close-capable transports: its copy
task performs no half-close on exit, and the caller receives only one of the
two task completions (not both) before closing both streams.  The SOCKS5
relay behaves the same way. -/
theorem relay_halfclose_cex :
    ConnOp.closeWrite ∉
      (signalRelay [⟨4, false, 4, false⟩, ⟨0, true, 0, false⟩]
        [⟨0, true, 0, false⟩]).upOps ∧
    (signalRelay [⟨4, false, 4, false⟩, ⟨0, true, 0, false⟩]
        [⟨0, true, 0, false⟩]).completionsAwaited = 1 ∧
    (signalRelay [⟨4, false, 4, false⟩, ⟨0, true, 0, false⟩]
        [⟨0, true, 0, false⟩]).completionsAwaited ≠ 2 ∧
    (socksRelay [⟨4, false, 4, false⟩, ⟨0, true, 0, false⟩]
        [⟨0, true, 0, false⟩]).completionsAwaited ≠ 2 ∧
    ConnOp.closeWrite ∉
      (socksRelay [⟨4, false, 4, false⟩, ⟨0, true, 0, false⟩]
        [⟨0, true, 0, false⟩]).upOps := by
  decide

/-! ### C3 — SNI parser: refusals and ClientHello round trip -/

theorem byteAt_at (d p : List ℕ) (x : ℕ) (s : List ℕ) (i : ℕ)
    (hd : d = p ++ x :: s) (hi : i = p.length) : byteAt d i = x := by
  subst hd hi
  unfold byteAt
  rw [List.getD_append_right _ _ _ _ le_rfl]
  simp

theorem byteAt_pair (d p : List ℕ) (n : ℕ) (s : List ℕ) (i : ℕ)
    (hd : d = p ++ enc16 n ++ s) (hi : i = p.length) (hn : n < 65536) :
    byteAt d i * 256 + byteAt d (i + 1) = n := by
  have h1 : byteAt d i = n / 256 % 256 := by
    refine byteAt_at d p _ (n % 256 :: s) i ?_ hi
    simpa [enc16] using hd
  have h2 : byteAt d (i + 1) = n % 256 := by
    refine byteAt_at d (p ++ [n / 256 % 256]) _ s (i + 1) ?_ ?_
    · simpa [enc16] using hd
    · simp [hi]
  rw [h1, h2]
  omega

theorem extract_slice (d p host s : List ℕ) (i : ℕ)
    (hd : d = p ++ (host ++ s)) (hi : i = p.length) :
    (d.drop i).take host.length = host := by
  subst hd hi
  rw [List.drop_left, List.take_left]

/-- Reaching a well-formed `server_name` extension at position `P.length`
(at the end of the input) yields the host bytes. -/
theorem findSNIExt_found (P host : List ℕ) (hh : host.length < 65536) :
    findSNIExt (P ++ sniExtension host) P.length
      (P ++ sniExtension host).length = host := by
  have hlen : (P ++ sniExtension host).length =
      P.length + (9 + host.length) := by
    simp [sniExtension, enc16]
    omega
  have htype : byteAt (P ++ sniExtension host) P.length * 256 +
      byteAt (P ++ sniExtension host) (P.length + 1) = 0 :=
    byteAt_pair _ P 0
      (enc16 (host.length + 5) ++ enc16 (host.length + 3) ++ [0] ++
        enc16 host.length ++ host) P.length
      (by simp [sniExtension, List.append_assoc]) rfl (by norm_num)
  have hnametype : byteAt (P ++ sniExtension host) (P.length + 4 + 2) = 0 :=
    byteAt_at _
      (P ++ enc16 0 ++ enc16 (host.length + 5) ++ enc16 (host.length + 3)) 0
      (enc16 host.length ++ host) (P.length + 4 + 2)
      (by simp [sniExtension, List.append_assoc])
      (by simp [enc16] <;> omega)
  have hnamelen : byteAt (P ++ sniExtension host) (P.length + 4 + 3) * 256 +
      byteAt (P ++ sniExtension host) (P.length + 4 + 4) = host.length :=
    byteAt_pair _
      (P ++ enc16 0 ++ enc16 (host.length + 5) ++ enc16 (host.length + 3) ++
        [0]) host.length host (P.length + 4 + 3)
      (by simp [sniExtension, List.append_assoc])
      (by simp [enc16] <;> omega) hh
  have hslice : ((P ++ sniExtension host).drop (P.length + 4 + 5)).take
      host.length = host :=
    extract_slice _
      (P ++ enc16 0 ++ enc16 (host.length + 5) ++ enc16 (host.length + 3) ++
        [0] ++ enc16 host.length) host [] (P.length + 4 + 5)
      (by simp [sniExtension, List.append_assoc])
      (by simp [enc16] <;> omega)
  rw [findSNIExt]
  rw [dif_pos (by omega)]
  rw [if_pos htype, if_neg (by omega), hnametype, hnamelen]
  rw [if_neg (by norm_num), if_neg (by omega), hslice]

/-- The extension walk skips a block of well-formed extensions none of which
has type `0x0000`. -/
theorem findSNIExt_skip (exts : List (ℕ × List ℕ))
    (hexts : ∀ e ∈ exts, e.1 ≠ 0 ∧ e.1 < 65536 ∧ e.2.length < 65536) :
    ∀ (d P tail : List ℕ), d = P ++ encodeExts exts ++ tail →
      findSNIExt d P.length d.length =
        findSNIExt d (P.length + (encodeExts exts).length) d.length := by
  induction exts with
  | nil =>
      intro d P tail hd
      simp [encodeExts]
  | cons e rest ih =>
      intro d P tail hd
      obtain ⟨hne, hlt, hlen2⟩ := hexts e (List.mem_cons_self _ _)
      have hdlen : d.length =
          P.length + (4 + e.2.length) + (encodeExts rest).length +
            tail.length := by
        simp [hd, encodeExts, enc16]
        omega
      have htype : byteAt d P.length * 256 + byteAt d (P.length + 1) =
          e.1 :=
        byteAt_pair d P e.1
          (enc16 e.2.length ++ e.2 ++ (encodeExts rest ++ tail)) P.length
          (by simp [hd, encodeExts, List.append_assoc]) rfl hlt
      have helen : byteAt d (P.length + 2) * 256 + byteAt d (P.length + 3) =
          e.2.length :=
        byteAt_pair d (P ++ enc16 e.1) e.2.length
          (e.2 ++ (encodeExts rest ++ tail)) (P.length + 2)
          (by simp [hd, encodeExts, List.append_assoc])
          (by simp [enc16] <;> omega) hlen2
      have hstep : findSNIExt d P.length d.length =
          findSNIExt d (P.length + 4 + e.2.length) d.length := by
        conv_lhs => rw [findSNIExt]
        rw [dif_pos (by omega), htype, if_neg hne, helen]
      rw [hstep]
      have hd' : d = (P ++ (enc16 e.1 ++ enc16 e.2.length ++ e.2)) ++
          encodeExts rest ++ tail := by
        simp [hd, encodeExts, List.append_assoc]
      have ih' := ih (fun x hx => hexts x (List.mem_cons_of_mem _ hx)) d
        (P ++ (enc16 e.1 ++ enc16 e.2.length ++ e.2)) tail hd'
      have hPB : (P ++ (enc16 e.1 ++ enc16 e.2.length ++ e.2)).length =
          P.length + (4 + e.2.length) := by
        simp [enc16]
        omega
      have hE : (encodeExts (e :: rest)).length =
          4 + e.2.length + (encodeExts rest).length := by
        simp [encodeExts, enc16]
        omega
      rw [hPB] at ih'
      have h1 : P.length + 4 + e.2.length = P.length + (4 + e.2.length) := by
        omega
      have h2 : P.length + (4 + e.2.length + (encodeExts rest).length) =
          P.length + (4 + e.2.length) + (encodeExts rest).length := by
        omega
      rw [h1, hE, h2]
      exact ih'

/-- Parsing a well-formed assembled ClientHello whose `server_name`
extension carries `host` (after any number of non-SNI extensions) returns
exactly `host`. -/
theorem extractSNI_roundtrip (r4 h3 vr sid cs comp host : List ℕ)
    (extsBefore : List (ℕ × List ℕ))
    (hr4 : r4.length = 4) (hh3 : h3.length = 3) (hvr : vr.length = 34)
    (hsidlen : sid.length < 256) (hcslen : cs.length < 65536)
    (hcomplen : comp.length < 256) (hhost : host.length < 65536)
    (hexts : ∀ e ∈ extsBefore, e.1 ≠ 0 ∧ e.1 < 65536 ∧ e.2.length < 65536)
    (hblock : (encodeExts extsBefore ++ sniExtension host).length < 65536) :
    extractSNI (mkClientHello r4 h3 vr sid cs comp extsBefore host) =
      host := by
  set d := mkClientHello r4 h3 vr sid cs comp extsBefore host with hdd
  have hlen : d.length = 49 + sid.length + cs.length + comp.length +
      (encodeExts extsBefore ++ sniExtension host).length := by
    simp [hdd, mkClientHello, enc16, hr4, hh3, hvr]
    omega
  have hb0 : byteAt d 0 = 0x16 :=
    byteAt_at d [] 0x16
      (r4 ++ [0x01] ++ h3 ++ vr ++ [sid.length] ++ sid ++
        enc16 cs.length ++ cs ++ [comp.length] ++ comp ++
        enc16 (encodeExts extsBefore ++ sniExtension host).length ++
        (encodeExts extsBefore ++ sniExtension host)) 0
      (by simp [hdd, mkClientHello, List.append_assoc]) (by simp)
  have hb5 : byteAt d 5 = 0x01 :=
    byteAt_at d ([0x16] ++ r4) 0x01
      (h3 ++ vr ++ [sid.length] ++ sid ++ enc16 cs.length ++ cs ++
        [comp.length] ++ comp ++
        enc16 (encodeExts extsBefore ++ sniExtension host).length ++
        (encodeExts extsBefore ++ sniExtension host)) 5
      (by simp [hdd, mkClientHello, List.append_assoc])
      (by simp [hr4])
  have hsid : byteAt d 43 = sid.length :=
    byteAt_at d ([0x16] ++ r4 ++ [0x01] ++ h3 ++ vr) sid.length
      (sid ++ enc16 cs.length ++ cs ++ [comp.length] ++ comp ++
        enc16 (encodeExts extsBefore ++ sniExtension host).length ++
        (encodeExts extsBefore ++ sniExtension host)) 43
      (by simp [hdd, mkClientHello, List.append_assoc])
      (by simp [hr4, hh3, hvr])
  have hcs : byteAt d (43 + 1 + sid.length) * 256 +
      byteAt d (43 + 1 + sid.length + 1) = cs.length :=
    byteAt_pair d ([0x16] ++ r4 ++ [0x01] ++ h3 ++ vr ++ [sid.length] ++ sid)
      cs.length
      (cs ++ ([comp.length] ++ comp ++
        enc16 (encodeExts extsBefore ++ sniExtension host).length ++
        (encodeExts extsBefore ++ sniExtension host))) (43 + 1 + sid.length)
      (by simp [hdd, mkClientHello, List.append_assoc])
      (by simp [hr4, hh3, hvr] <;> omega) hcslen
  have hcomp : byteAt d (43 + 1 + sid.length + 2 + cs.length) =
      comp.length :=
    byteAt_at d
      ([0x16] ++ r4 ++ [0x01] ++ h3 ++ vr ++ [sid.length] ++ sid ++
        enc16 cs.length ++ cs) comp.length
      (comp ++
        enc16 (encodeExts extsBefore ++ sniExtension host).length ++
        (encodeExts extsBefore ++ sniExtension host))
      (43 + 1 + sid.length + 2 + cs.length)
      (by simp [hdd, mkClientHello, List.append_assoc])
      (by simp [hr4, hh3, hvr, enc16] <;> omega)
  have hext : byteAt d (43 + 1 + sid.length + 2 + cs.length + 1 +
        comp.length) * 256 +
      byteAt d (43 + 1 + sid.length + 2 + cs.length + 1 + comp.length + 1) =
      (encodeExts extsBefore ++ sniExtension host).length :=
    byteAt_pair d
      ([0x16] ++ r4 ++ [0x01] ++ h3 ++ vr ++ [sid.length] ++ sid ++
        enc16 cs.length ++ cs ++ [comp.length] ++ comp)
      (encodeExts extsBefore ++ sniExtension host).length
      (encodeExts extsBefore ++ sniExtension host)
      (43 + 1 + sid.length + 2 + cs.length + 1 + comp.length)
      (by simp [hdd, mkClientHello, List.append_assoc])
      (by simp [hr4, hh3, hvr, enc16] <;> omega) hblock
  have hfind : findSNIExt d
      (43 + 1 + sid.length + 2 + cs.length + 1 + comp.length + 2)
      d.length = host := by
    have hd4 : d = ([0x16] ++ r4 ++ [0x01] ++ h3 ++ vr ++ [sid.length] ++
        sid ++ enc16 cs.length ++ cs ++ [comp.length] ++ comp ++
        enc16 (encodeExts extsBefore ++ sniExtension host).length) ++
        encodeExts extsBefore ++ sniExtension host := by
      simp [hdd, mkClientHello, List.append_assoc]
    have hP4 : (43 + 1 + sid.length + 2 + cs.length + 1 + comp.length + 2) =
        ([0x16] ++ r4 ++ [0x01] ++ h3 ++ vr ++ [sid.length] ++ sid ++
          enc16 cs.length ++ cs ++ [comp.length] ++ comp ++
          enc16 (encodeExts extsBefore ++
            sniExtension host).length).length := by
      simp [hr4, hh3, hvr, enc16]
      omega
    rw [hP4]
    rw [findSNIExt_skip extsBefore hexts d _ (sniExtension host) hd4]
    have hQ : (([0x16] ++ r4 ++ [0x01] ++ h3 ++ vr ++ [sid.length] ++ sid ++
        enc16 cs.length ++ cs ++ [comp.length] ++ comp ++
        enc16 (encodeExts extsBefore ++ sniExtension host).length).length +
          (encodeExts extsBefore).length) =
        (([0x16] ++ r4 ++ [0x01] ++ h3 ++ vr ++ [sid.length] ++ sid ++
          enc16 cs.length ++ cs ++ [comp.length] ++ comp ++
          enc16 (encodeExts extsBefore ++ sniExtension host).length) ++
          encodeExts extsBefore).length := by
      simp <;> omega
    have hdQ : d = (([0x16] ++ r4 ++ [0x01] ++ h3 ++ vr ++ [sid.length] ++
        sid ++ enc16 cs.length ++ cs ++ [comp.length] ++ comp ++
        enc16 (encodeExts extsBefore ++ sniExtension host).length) ++
        encodeExts extsBefore) ++ sniExtension host := by
      simp [hdd, mkClientHello, List.append_assoc]
    rw [hQ, hdQ]
    exact findSNIExt_found _ host hhost
  simp only [extractSNI]
  rw [hb0, hb5, hsid, hcs, hcomp, hext]
  rw [if_neg (show ¬ d.length < 5 by omega)]
  rw [if_neg (show ¬ ((0x16 : ℕ) ≠ 0x16) by simp)]
  rw [if_neg (show ¬ d.length < 5 + 4 by omega)]
  rw [if_neg (show ¬ ((0x01 : ℕ) ≠ 0x01) by simp)]
  rw [if_neg (show ¬ d.length < 9 + 34 by omega)]
  rw [if_neg (show ¬ d.length < 43 + 1 + sid.length + 2 by omega)]
  rw [if_neg (show ¬ d.length < 43 + 1 + sid.length + 2 + cs.length + 1 by
    omega)]
  rw [if_neg (show ¬ d.length <
    43 + 1 + sid.length + 2 + cs.length + 1 + comp.length + 2 by omega)]
  rw [show min (43 + 1 + sid.length + 2 + cs.length + 1 + comp.length + 2 +
      (encodeExts extsBefore ++ sniExtension host).length) d.length =
      d.length by omega]
  exact hfind

/-- C3: `extractSNI` is a pure total function of its input bytes (total by
construction in this embedding, with every slice access guarded exactly as
in the source): an input shorter than a record header, or whose first byte
is not `0x16`, or whose handshake-type byte is not `0x01` yields the empty
string, as does any failed bounds check; and parsing a well-formed
ClientHello whose `server_name` extension's first entry is a `host_name`
equal to `host` returns `host`. -/
theorem extractSNI_spec (r4 h3 vr sid cs comp host : List ℕ)
    (extsBefore : List (ℕ × List ℕ))
    (hr4 : r4.length = 4) (hh3 : h3.length = 3) (hvr : vr.length = 34)
    (hsidlen : sid.length < 256) (hcslen : cs.length < 65536)
    (hcomplen : comp.length < 256) (hhost : host.length < 65536)
    (hexts : ∀ e ∈ extsBefore, e.1 ≠ 0 ∧ e.1 < 65536 ∧ e.2.length < 65536)
    (hblock : (encodeExts extsBefore ++ sniExtension host).length < 65536) :
    (∀ d : List ℕ, d.length < 5 → extractSNI d = []) ∧
    (∀ d : List ℕ, byteAt d 0 ≠ 0x16 → extractSNI d = []) ∧
    (∀ d : List ℕ, byteAt d 5 ≠ 0x01 → extractSNI d = []) ∧
    extractSNI (mkClientHello r4 h3 vr sid cs comp extsBefore host) =
      host := by
  refine ⟨?_, ?_, ?_, ?_⟩
  · intro d h
    simp [extractSNI, h]
  · intro d h
    simp only [extractSNI]
    split_ifs <;> simp_all
  · intro d h
    simp only [extractSNI]
    split_ifs <;> simp_all
  · exact extractSNI_roundtrip r4 h3 vr sid cs comp host extsBefore hr4 hh3
      hvr hsidlen hcslen hcomplen hhost hexts hblock

/-- Witness for C3 at a fully concrete ClientHello (one leading non-SNI
extension, host bytes `[99, 104]`), plus a refused short input. -/
theorem extractSNI_spec_witness :
    (([3, 3, 0, 120] : List ℕ).length = 4 ∧
      ([0, 0, 116] : List ℕ).length = 3 ∧
      (List.replicate 34 0 : List ℕ).length = 34 ∧
      ([] : List ℕ).length < 256 ∧ ([0, 0] : List ℕ).length < 65536 ∧
      ([0] : List ℕ).length < 256 ∧ ([99, 104] : List ℕ).length < 65536 ∧
      (∀ e ∈ [((43 : ℕ), [(7 : ℕ)])],
        e.1 ≠ 0 ∧ e.1 < 65536 ∧ e.2.length < 65536) ∧
      (encodeExts [(43, [7])] ++ sniExtension [99, 104]).length < 65536) ∧
    extractSNI (mkClientHello [3, 3, 0, 120] [0, 0, 116]
      (List.replicate 34 0) [] [0, 0] [0] [(43, [7])] [99, 104]) =
      [99, 104] ∧
    extractSNI [99] = [] :=
  ⟨by decide,
    (extractSNI_spec [3, 3, 0, 120] [0, 0, 116] (List.replicate 34 0) []
      [0, 0] [0] [99, 104] [(43, [7])] (by decide) (by decide) (by decide)
      (by decide) (by decide) (by decide) (by decide) (by decide)
      (by decide)).2.2.2,
    (extractSNI_spec [3, 3, 0, 120] [0, 0, 116] (List.replicate 34 0) []
      [0, 0] [0] [99, 104] [(43, [7])] (by decide) (by decide) (by decide)
      (by decide) (by decide) (by decide) (by decide) (by decide)
      (by decide)).1 [99] (by decide)⟩

end SignalProxy
